/-
  Verification of the agentic tool-orchestration core of the
  sightline-demo-for-embedded repository.

  Shallow embedding of:
  * src/lib/llm.ts        — the `chat` agentic loop (engine rounds, tool
                            execution, interim updates, debug logs, token totals)
  * src/lib/cdata.ts      — `mcpRequest` (JSON-RPC id counter, SSE body parsing)
  * CDataContext          — token cache (`getValidToken`), `withAutoRefresh`

  External effects (the reasoning-engine HTTP call, JSON.(parse|stringify),
  JWT generation, wall-clock time) are modelled as explicit parameters:
  the engine is a finite list of responses consumed in order, the tool
  callback is a function into `Except`, serialization functions are
  arbitrary parameters of the theorems.
-/
import Mathlib

namespace Sightline

/-- JS `s.includes(sub)` substring test. -/
def strIncludes (sub s : String) : Bool :=
  decide (List.IsInfix sub.toList s.toList)

/-- JS `s.trim()`: strip leading and trailing whitespace. -/
def jsTrim (s : String) : String :=
  String.mk
    (((s.toList.dropWhile Char.isWhitespace).reverse.dropWhile
        Char.isWhitespace).reverse)

/-! ## Data model of src/lib/llm.ts -/

inductive StopReason where
  | end_turn
  | tool_use
  | max_tokens
deriving DecidableEq, Repr

structure Usage where
  input_tokens : Nat
  output_tokens : Nat
deriving DecidableEq, Repr

/-- `AnthropicContentBlock`: a record with a `type` tag and optional fields;
embedded as a sum over the three tags.  `I` is the type of the opaque
`input: Record<string, unknown>` payloads. -/
inductive ContentBlock (I : Type) where
  | text (t : Option String)
  | toolUse (id name : String) (input : I)
  | toolResult (tool_use_id content : String)
deriving DecidableEq, Repr

inductive Role where
  | user
  | assistant
deriving DecidableEq, Repr

/-- `content: string | AnthropicContentBlock[]`. -/
inductive MsgContent (I : Type) where
  | str (s : String)
  | blocks (bs : List (ContentBlock I))
deriving DecidableEq, Repr

structure AnthropicMessage (I : Type) where
  role : Role
  content : MsgContent I
deriving DecidableEq, Repr

structure AnthropicResponse (I : Type) where
  id : String
  content : List (ContentBlock I)
  stop_reason : StopReason
  usage : Usage
deriving DecidableEq, Repr

/-- `LLMLogEntry`: the `data` payload is the request body (its `messages`
field is what varies) for requests, and the engine response for responses.
Timestamps/durations are wall-clock effects, omitted. -/
inductive LLMLogEntry (I : Type) where
  | request (messages : List (AnthropicMessage I))
  | response (resp : AnthropicResponse I)
deriving DecidableEq, Repr

/-- `InterimUpdate`, with `R` the type of opaque tool results. -/
inductive InterimUpdate (I R : Type) where
  | thinking (content : String)
  | tool_start (toolName : String) (toolInput : I)
  | tool_complete (toolName : String) (toolResult : R)
  | tool_error (toolName : String) (error : String)
deriving DecidableEq, Repr

/-- `block.type === "text"`. -/
def isTextBlock {I : Type} : ContentBlock I → Bool
  | .text _ => true
  | _ => false

/-- `block.text || ""` on a text block. -/
def blockText {I : Type} : ContentBlock I → String
  | .text (some s) => s
  | _ => ""

/-- `textBlocks.map(b => b.text || "").join("\n")` over the text blocks of a
response's content. -/
def textJoin {I : Type} (content : List (ContentBlock I)) : String :=
  String.intercalate "\n" ((content.filter isTextBlock).map blockText)

/-- The `tool_use` blocks of a response, in order, as `(id, name, input)`. -/
def toolUses {I : Type} (content : List (ContentBlock I)) :
    List (String × String × I) :=
  content.filterMap fun b =>
    match b with
    | .toolUse id name input => some (id, name, input)
    | _ => none

/-- Output of the per-round tool-execution `for` loop. -/
structure ExecOut (I R : Type) where
  results : List (ContentBlock I)
  calls : List (String × R)
  updates : List (InterimUpdate I R)
deriving DecidableEq, Repr

/-- The `for (const toolUse of toolUseBlocks)` loop of `chat`:
`callTool` is the caller-supplied invoke callback (`Except.error m` models a
rejection with message `m`), `stringify` models `JSON.stringify`,
`hasCallback` whether `onInterimUpdate` was supplied. -/
def execTools {I R : Type} (callTool : String → I → Except String R)
    (stringify : R → String) (hasCallback : Bool) :
    List (String × String × I) → ExecOut I R
  | [] => ⟨[], [], []⟩
  | (id, name, input) :: rest =>
    let startUpd : List (InterimUpdate I R) :=
      if hasCallback then [.tool_start name input] else []
    match callTool name input with
    | .ok result =>
      let out := execTools callTool stringify hasCallback rest
      { results := .toolResult id (stringify result) :: out.results
        calls := (name, result) :: out.calls
        updates := startUpd ++
          (if hasCallback then [.tool_complete name result] else []) ++
          out.updates }
    | .error msg =>
      let out := execTools callTool stringify hasCallback rest
      { results := .toolResult id ("Error: " ++ msg) :: out.results
        calls := out.calls
        updates := startUpd ++
          (if hasCallback then [.tool_error name msg] else []) ++
          out.updates }

/-- The thinking-extraction prologue of a tool round:
`if (textBlocks.length > 0 && onInterimUpdate) { ... if (thinking.trim()) emit }`. -/
def thinkingUpdates {I R : Type} (hasCallback : Bool)
    (content : List (ContentBlock I)) : List (InterimUpdate I R) :=
  let textBlocks := content.filter isTextBlock
  if textBlocks.length > 0 && hasCallback then
    let thinking := String.intercalate "\n" (textBlocks.map blockText)
    if jsTrim thinking ≠ "" then [.thinking thinking] else []
  else []

/-- Mutable run state of `chat`: the `messages`, `toolCalls`, `logEntries`
arrays and the sequence of emitted interim updates. -/
structure ChatAcc (I R : Type) where
  messages : List (AnthropicMessage I)
  toolCalls : List (String × R)
  logEntries : List (LLMLogEntry I)
  updates : List (InterimUpdate I R)
deriving DecidableEq, Repr

/-- `sendMessage`: pushes a request log entry, consumes the next engine
response, pushes a response log entry.  An exhausted engine models a failed
fetch (the thrown `Anthropic API error`). -/
def sendMessage {I : Type} (engine : List (AnthropicResponse I))
    (messages : List (AnthropicMessage I)) (log : List (LLMLogEntry I)) :
    Except String (AnthropicResponse I × List (AnthropicResponse I) × List (LLMLogEntry I)) :=
  match engine with
  | [] => .error "Anthropic API error"
  | r :: rest => .ok (r, rest, log ++ [.request messages, .response r])

/-- One tool round (steps 3.a–3.c of the loop body): emit thinking, execute
the round's tools, append the assistant message and the tool-result user
message. -/
def stepAcc {I R : Type} (callTool : String → I → Except String R)
    (stringify : R → String) (hasCallback : Bool)
    (r : AnthropicResponse I) (acc : ChatAcc I R) : ChatAcc I R :=
  let out := execTools callTool stringify hasCallback (toolUses r.content)
  { messages := acc.messages ++
      [⟨.assistant, .blocks r.content⟩, ⟨.user, .blocks out.results⟩]
    toolCalls := acc.toolCalls ++ out.calls
    logEntries := acc.logEntries
    updates := acc.updates ++ thinkingUpdates hasCallback r.content ++ out.updates }

/-- `totalInputTokens`/`totalOutputTokens`: the accumulation loop over
`logEntries` at the end of `chat`. -/
def chatTotals {I : Type} (entries : List (LLMLogEntry I)) : Nat × Nat :=
  entries.foldl
    (fun acc e =>
      match e with
      | .response r => (acc.1 + r.usage.input_tokens, acc.2 + r.usage.output_tokens)
      | _ => acc)
    (0, 0)

/-- Result record of `chat` (`totalDuration` is wall-clock, omitted). -/
structure ChatResult (I R : Type) where
  response : String
  toolCalls : List (String × R)
  entries : List (LLMLogEntry I)
  totalInputTokens : Nat
  totalOutputTokens : Nat
  updates : List (InterimUpdate I R)
deriving DecidableEq, Repr

/-- The `while (response.stop_reason === "tool_use")` loop together with the
final-response extraction. -/
def chatLoop {I R : Type} (callTool : String → I → Except String R)
    (stringify : R → String) (hasCallback : Bool) :
    List (AnthropicResponse I) → AnthropicResponse I → ChatAcc I R →
    Except String (ChatResult I R)
  | engine, r, acc =>
    if r.stop_reason = .tool_use then
      let acc' := stepAcc callTool stringify hasCallback r acc
      match engine with
      | [] => .error "Anthropic API error"
      | next :: rest =>
        chatLoop callTool stringify hasCallback rest next
          { acc' with logEntries := acc'.logEntries ++
              [.request acc'.messages, .response next] }
    else
      let totals := chatTotals acc.logEntries
      .ok ⟨textJoin r.content, acc.toolCalls, acc.logEntries,
        totals.1, totals.2, acc.updates⟩

/-- `chat`: builds `messages = [...conversationHistory, {user}]`, performs the
first engine call, runs the agentic loop. -/
def chat {I R : Type} (callTool : String → I → Except String R)
    (stringify : R → String) (hasCallback : Bool) (userMessage : String)
    (conversationHistory : List (AnthropicMessage I))
    (engine : List (AnthropicResponse I)) : Except String (ChatResult I R) :=
  let messages := conversationHistory ++ [⟨.user, .str userMessage⟩]
  match sendMessage engine messages [] with
  | .error e => .error e
  | .ok (r, rest, log) =>
    chatLoop callTool stringify hasCallback rest r ⟨messages, [], log, []⟩

/-! ## src/lib/cdata.ts — `mcpRequest` -/

structure MCPError where
  code : Int
  message : String
deriving DecidableEq, Repr

/-- The JSON-RPC `MCPResponse` payload shape, with `R` the opaque type of the
`result` field. -/
structure MCPResponseJ (R : Type) where
  result : Option R
  error : Option MCPError
deriving DecidableEq, Repr

/-- Keep a newly parsed value, else the previous accumulator:
`match o with | some v => some v | none => acc`. -/
def lastWins {β : Type} (o acc : Option β) : Option β :=
  match o with
  | some v => some v
  | none => acc

/-- The SSE branch of `mcpRequest`: split the body on newlines; for every line
starting with `"data: "`, strip the prefix, skip it if blank, otherwise try to
parse it, keeping the latest successful parse.  `parseJson` models
`JSON.parse` (`none` = throw). -/
def parseSSE {R : Type} (parseJson : String → Option (MCPResponseJ R))
    (text : String) : Option (MCPResponseJ R) :=
  (text.splitOn "\n").foldl
    (fun acc line =>
      if line.startsWith "data: " then
        let jsonStr := line.drop 6
        if jsTrim jsonStr ≠ "" then lastWins (parseJson jsonStr) acc
        else acc
      else acc)
    none

/-- Response handling of `mcpRequest` after a successful fetch: branch on the
content type, extract the JSON-RPC payload, throw on an `error` member,
otherwise return `result`. -/
def mcpHandleResponse {R : Type} (parseJson : String → Option (MCPResponseJ R))
    (contentType body : String) : Except String (Option R) :=
  if strIncludes "text/event-stream" contentType then
    match parseSSE parseJson body with
    | none => .error "No valid JSON data in SSE response"
    | some data =>
      match data.error with
      | some e => .error e.message
      | none => .ok data.result
  else
    match parseJson body with
    | none => .error "Unexpected token in JSON"
    | some data =>
      match data.error with
      | some e => .error e.message
      | none => .ok data.result

/-- The JSON-RPC request record built by `mcpRequest` (`jsonrpc: "2.0"` is
constant; params kept opaque as `P`). -/
structure MCPRequestMsg (P : Type) where
  id : Nat
  method : String
  params : Option P
deriving DecidableEq, Repr

/-- `id: ++requestId` — the module-level counter is pre-incremented and its
new value is the request id. -/
def mcpNextRequest {P : Type} (requestId : Nat) (method : String)
    (params : Option P) : MCPRequestMsg P × Nat :=
  ({ id := requestId + 1, method := method, params := params }, requestId + 1)

/-- The ids produced by a session of successive `mcpRequest` calls starting
from counter value `requestId`. -/
def mcpSessionIds {P : Type} (requestId : Nat) :
    List (String × Option P) → List Nat
  | [] => []
  | (m, p) :: rest =>
    let (req, rid) := mcpNextRequest requestId m p
    req.id :: mcpSessionIds rid rest

/-! ## CDataContext — token cache and auto-refresh -/

/-- The two refs `tokenRef` / `tokenExpiryRef` (ms since epoch). -/
structure TokenState where
  token : Option String
  expiry : Nat
deriving DecidableEq, Repr

/-- JS truthiness of `tokenRef.current` (a nullable string). -/
def truthyToken : Option String → Bool
  | none => false
  | some s => s ≠ ""

/-- `isTokenExpired`: `!tokenRef.current || Date.now() >= tokenExpiryRef.current`. -/
def isTokenExpired (st : TokenState) (now : Nat) : Bool :=
  !truthyToken st.token || decide (now ≥ st.expiry)

/-- `doRefreshToken`, with `genJWT` the outcome of `generateJWT()` (+ the
subsequent `listMCPTools`, whose failure also lands in the catch): on success
the refs hold the new token and `now + 2h − 5min`; on failure the token ref
is cleared and the error rethrown. -/
def doRefreshToken (genJWT : Except String String) (now : Nat)
    (st : TokenState) : Except String String × TokenState :=
  match genJWT with
  | .ok t =>
    (.ok t, { token := some t, expiry := now + 2 * 60 * 60 * 1000 - 5 * 60 * 1000 })
  | .error e => (.error e, { token := none, expiry := st.expiry })

/-- `getValidToken`: return the cached token when present (truthy) and not
expired, else refresh.  The third component counts acquisitions performed. -/
def getValidToken (genJWT : Except String String) (now : Nat)
    (st : TokenState) : Except String String × TokenState × Nat :=
  if truthyToken st.token && !isTokenExpired st now then
    (.ok (st.token.getD ""), st, 0)
  else
    let (r, st') := doRefreshToken genJWT now st
    (r, st', 1)

/-- The auth-error heuristic of `withAutoRefresh`. -/
def isAuthError (m : String) : Bool :=
  strIncludes "401" m || strIncludes "unauthorized" m.toLower ||
  strIncludes "authentication" m.toLower || strIncludes "token" m.toLower

/-- `withAutoRefresh`: get a valid token, run the call; on an auth-classed
failure force one refresh (`genJWT2` at time `now2`) and retry once; any
other failure, and any failure of the retry, propagates.  The `Nat` counts
acquisitions performed. -/
def withAutoRefresh {T : Type} (genJWT genJWT2 : Except String String)
    (now now2 : Nat) (apiCall : String → Except String T)
    (st : TokenState) : Except String T × TokenState × Nat :=
  match getValidToken genJWT now st with
  | (.error e, st', n) => (.error e, st', n)
  | (.ok t, st', n) =>
    match apiCall t with
    | .ok v => (.ok v, st', n)
    | .error m =>
      if isAuthError m then
        match doRefreshToken genJWT2 now2 st' with
        | (.ok t2, st'') => (apiCall t2, st'', n + 1)
        | (.error e, st'') => (.error e, st'', n + 1)
      else (.error m, st', n)

/-! ## Heap model for the `messages` array (frame property of `chat`)

`chat` builds `messages` as a fresh array (`[...conversationHistory, …]`) and
pushes only to it; to state that the caller's `conversationHistory` array is
never mutated we re-run the loop over an explicit heap of arrays, mirroring
each array operation of the source. -/

/-- Read heap cell `i` (an array of messages). -/
def hget {α : Type} (h : List (List α)) (i : Nat) : List α :=
  h.getD i []

/-- Allocate a fresh array initialized with `xs`; returns its reference. -/
def halloc {α : Type} (h : List (List α)) (xs : List α) :
    List (List α) × Nat :=
  (h ++ [xs], h.length)

/-- `arr.push(x)` on the array at reference `i`. -/
def hpush {α : Type} (h : List (List α)) (i : Nat) (x : α) : List (List α) :=
  h.set i (hget h i ++ [x])

/-- The agentic loop of `chat`, with the two `messages.push(...)` calls of
each round performed on the heap cell `mref`; returns the final heap both on
normal termination and at the point where an exhausted engine throws. -/
def chatLoopH {I R : Type} (callTool : String → I → Except String R)
    (stringify : R → String) (hasCallback : Bool) :
    List (AnthropicResponse I) → AnthropicResponse I →
    List (List (AnthropicMessage I)) → Nat → List (List (AnthropicMessage I))
  | engine, r, h, mref =>
    if r.stop_reason = .tool_use then
      let out := execTools callTool stringify hasCallback (toolUses r.content)
      let h1 := hpush h mref ⟨.assistant, .blocks r.content⟩
      let h2 := hpush h1 mref ⟨.user, .blocks out.results⟩
      match engine with
      | [] => h2
      | next :: rest => chatLoopH callTool stringify hasCallback rest next h2 mref
    else h

/-- `chat` over the heap: the caller's history lives in cell `histRef`;
`messages` is allocated fresh from a spread copy of it. -/
def chatH {I R : Type} (callTool : String → I → Except String R)
    (stringify : R → String) (hasCallback : Bool) (userMessage : String)
    (histRef : Nat) (h0 : List (List (AnthropicMessage I)))
    (engine : List (AnthropicResponse I)) : List (List (AnthropicMessage I)) :=
  let alloc := halloc h0 (hget h0 histRef ++ [⟨.user, .str userMessage⟩])
  match engine with
  | [] => alloc.1
  | r :: rest => chatLoopH callTool stringify hasCallback rest r alloc.1 alloc.2

/-! ## Observation helpers -/

/-- `block.type === "tool_result"`. -/
def isToolResultBlock {I : Type} : ContentBlock I → Bool
  | .toolResult _ _ => true
  | _ => false

/-- The `tool_use_id` field of a `tool_result` block. -/
def resultToolUseId {I : Type} : ContentBlock I → String
  | .toolResult t _ => t
  | _ => ""

/-- Whether an interim update is a `thinking` update. -/
def isThinkingUpd {I R : Type} : InterimUpdate I R → Bool
  | .thinking _ => true
  | _ => false

/-- The `usage` payloads of the response-typed entries of a debug log. -/
def responseEntryUsages {I : Type} (entries : List (LLMLogEntry I)) : List Usage :=
  entries.filterMap fun e =>
    match e with
    | .response r => some r.usage
    | _ => none

/-- Modelled from the spec: "the last line of the body that starts with
`data: ` and parses as well-formed JSON" — the spec-side description of the
SSE payload selection, to be compared with `parseSSE` (the code-side
translation). -/
def lastDataPayload {R : Type} (parseJson : String → Option (MCPResponseJ R))
    (text : String) : Option (MCPResponseJ R) :=
  ((text.splitOn "\n").filterMap fun line =>
    if line.startsWith "data: " then parseJson (line.drop 6) else none).getLast?

/-! ## Concrete test fixtures (used by witnesses) -/

/-- A concrete tool callback: tool `"a"` succeeds, everything else rejects. -/
def ctA : String → Nat → Except String String :=
  fun name _ => if name = "a" then .ok "va" else .error "boom"

/-- An engine response requesting two tools, the second of which will fail. -/
def rTool : AnthropicResponse Nat :=
  ⟨"r0", [.toolUse "t1" "a" 5, .toolUse "t2" "b" 6], .tool_use, ⟨3, 4⟩⟩

/-- A terminal engine response. -/
def rEnd : AnthropicResponse Nat :=
  ⟨"r1", [.text (some "done")], .end_turn, ⟨5, 6⟩⟩

/-- The empty initial accumulator (fresh run state). -/
def accNil : ChatAcc Nat String := ⟨[], [], [], []⟩

/-- Messages after the fixture run's first request. -/
def msgs1 : List (AnthropicMessage Nat) := [⟨.user, .str "q"⟩]

/-- Messages after the fixture run's tool round. -/
def msgs2 : List (AnthropicMessage Nat) :=
  msgs1 ++ [⟨.assistant, .blocks rTool.content⟩,
    ⟨.user, .blocks [.toolResult "t1" "va", .toolResult "t2" "Error: boom"]⟩]

/-- The result of the two-round fixture run
`chat ctA id false "q" [] [rTool, rEnd]`. -/
def resTwoRound : ChatResult Nat String :=
  ⟨"done", [("a", "va")],
   [.request msgs1, .response rTool, .request msgs2, .response rEnd],
   8, 10, []⟩

/-- A tool-round response whose only text block is whitespace. -/
def rWs : AnthropicResponse Nat :=
  ⟨"rw", [.text (some " "), .toolUse "t1" "a" 5], .tool_use, ⟨1, 1⟩⟩

/-- A tool-round response with real leading text. -/
def rTxt : AnthropicResponse Nat :=
  ⟨"rt", [.text (some "let me check"), .toolUse "t1" "a" 5], .tool_use, ⟨1, 1⟩⟩

/-- The result of the run `chat ctA id true "q" [] [rWs, rEnd]`, whose tool
round carries a whitespace-only text block. -/
def resWsRun : ChatResult Nat String :=
  ⟨"done", [("a", "va")],
   [.request msgs1, .response rWs,
    .request (msgs1 ++ [⟨.assistant, .blocks rWs.content⟩,
      ⟨.user, .blocks [.toolResult "t1" "va"]⟩]),
    .response rEnd],
   6, 7, [.tool_start "a" 5, .tool_complete "a" "va"]⟩

/-- A cached-token state: value `"tok"`, expiring at instant `1000`. -/
def stTok : TokenState := ⟨some "tok", 1000⟩

/-- An API call that rejects with an auth-classed message on `"tok"`. -/
def apiCallFix : String → Except String Nat :=
  fun s => if s = "tok" then .error "HTTP 401 unauthorized" else .ok 7

/-- A concrete JSON parser stub recognizing exactly two payload strings. -/
def pFix : String → Option (MCPResponseJ Nat) :=
  fun s =>
    if s = "one" then some ⟨some 1, none⟩
    else if s = "two" then some ⟨some 2, none⟩
    else none

/-- An SSE body with an event line, two parseable data lines and a malformed
one. -/
def sseBody : String := "event: message\ndata: one\ndata: ???\ndata: two\n"

/-! ## Helper lemmas about the tool-execution loop -/

theorem execTools_results_length {I R : Type} (ct : String → I → Except String R)
    (st : R → String) (cb : Bool) (uses : List (String × String × I)) :
    (execTools ct st cb uses).results.length = uses.length := by
  induction uses with
  | nil => rfl
  | cons u rest ih =>
    obtain ⟨id, name, input⟩ := u
    cases h : ct name input <;> simp [execTools, h, ih]

theorem execTools_results_ids {I R : Type} (ct : String → I → Except String R)
    (st : R → String) (cb : Bool) (uses : List (String × String × I)) :
    (execTools ct st cb uses).results.map resultToolUseId =
      uses.map (fun u => u.1) := by
  induction uses with
  | nil => rfl
  | cons u rest ih =>
    obtain ⟨id, name, input⟩ := u
    cases h : ct name input <;> simp [execTools, h, resultToolUseId, ih]

theorem execTools_results_are_toolResults {I R : Type}
    (ct : String → I → Except String R) (st : R → String) (cb : Bool)
    (uses : List (String × String × I)) :
    ∀ b ∈ (execTools ct st cb uses).results, isToolResultBlock b = true := by
  induction uses with
  | nil => intro b hb; simp [execTools] at hb
  | cons u rest ih =>
    obtain ⟨id, name, input⟩ := u
    intro b hb
    cases h : ct name input <;>
      · simp [execTools, h] at hb
        rcases hb with hb | hb
        · simp [hb, isToolResultBlock]
        · exact ih b hb

theorem execTools_append {I R : Type} (ct : String → I → Except String R)
    (st : R → String) (cb : Bool) (us vs : List (String × String × I)) :
    (execTools ct st cb (us ++ vs)).results =
      (execTools ct st cb us).results ++ (execTools ct st cb vs).results := by
  induction us with
  | nil => simp [execTools]
  | cons u rest ih =>
    obtain ⟨id, name, input⟩ := u
    cases h : ct name input <;> simp [execTools, h, ih]

theorem execTools_no_thinking {I R : Type} (ct : String → I → Except String R)
    (st : R → String) (cb : Bool) (uses : List (String × String × I)) :
    ∀ u ∈ (execTools ct st cb uses).updates, isThinkingUpd u = false := by
  induction uses with
  | nil => intro u hu; simp [execTools] at hu
  | cons x rest ih =>
    obtain ⟨id, name, input⟩ := x
    intro u hu
    cases h : ct name input <;>
    · simp [execTools, h] at hu
      rcases hu with hu | hu | hu <;> cases cb <;> simp_all [isThinkingUpd]

/-- One unfolding of the loop on a tool round with a next engine response
available: the round's mutations happen and the loop recurses. -/
theorem chatLoop_tool_step {I R : Type} (ct : String → I → Except String R)
    (st : R → String) (cb : Bool) (r next : AnthropicResponse I)
    (rest : List (AnthropicResponse I)) (acc : ChatAcc I R)
    (h : r.stop_reason = .tool_use) :
    chatLoop ct st cb (next :: rest) r acc =
      chatLoop ct st cb rest next
        { stepAcc ct st cb r acc with
            logEntries := (stepAcc ct st cb r acc).logEntries ++
              [.request (stepAcc ct st cb r acc).messages, .response next] } := by
  rw [chatLoop]
  simp [h]

/-- The token-totals fold, generalized over its initial accumulator. -/
theorem chatTotals_shift {I : Type} (entries : List (LLMLogEntry I)) (a b : Nat) :
    entries.foldl
      (fun acc e =>
        match e with
        | .response r => (acc.1 + r.usage.input_tokens, acc.2 + r.usage.output_tokens)
        | _ => acc)
      (a, b) =
    (a + ((responseEntryUsages entries).map Usage.input_tokens).sum,
     b + ((responseEntryUsages entries).map Usage.output_tokens).sum) := by
  induction entries generalizing a b with
  | nil => simp [responseEntryUsages]
  | cons e rest ih =>
    cases e with
    | request ms => simpa [responseEntryUsages] using ih a b
    | response r =>
      simpa [responseEntryUsages, Nat.add_assoc] using
        ih (a + r.usage.input_tokens) (b + r.usage.output_tokens)

theorem chatTotals_eq_sums {I : Type} (entries : List (LLMLogEntry I)) :
    chatTotals entries =
      (((responseEntryUsages entries).map Usage.input_tokens).sum,
       ((responseEntryUsages entries).map Usage.output_tokens).sum) := by
  simpa [chatTotals] using chatTotals_shift entries 0 0

/-- Any successful run reports as totals exactly the totals fold of its own
log entries. -/
theorem chatLoop_ok_fields {I R : Type} (ct : String → I → Except String R)
    (st : R → String) (cb : Bool) (engine : List (AnthropicResponse I)) :
    ∀ (r : AnthropicResponse I) (acc : ChatAcc I R) (res : ChatResult I R),
      chatLoop ct st cb engine r acc = .ok res →
      res.totalInputTokens = (chatTotals res.entries).1 ∧
      res.totalOutputTokens = (chatTotals res.entries).2 := by
  induction engine with
  | nil =>
    intro r acc res h
    rw [chatLoop] at h
    by_cases hr : r.stop_reason = .tool_use
    · simp [hr] at h
    · rw [if_neg hr] at h
      simp only [Except.ok.injEq] at h
      subst h
      exact ⟨rfl, rfl⟩
  | cons next rest ih =>
    intro r acc res h
    rw [chatLoop] at h
    by_cases hr : r.stop_reason = .tool_use
    · rw [if_pos hr] at h
      exact ih next _ res h
    · rw [if_neg hr] at h
      simp only [Except.ok.injEq] at h
      subst h
      exact ⟨rfl, rfl⟩

/-! ## Heap lemmas (frame reasoning for the `messages` array) -/

theorem hget_halloc {α : Type} (h : List (List α)) (xs : List α) (i : Nat)
    (hi : i < h.length) : hget (halloc h xs).1 i = hget h i :=
  List.getD_append h [xs] [] i hi

theorem hget_hpush_ne {α : Type} (h : List (List α)) (i j : Nat) (x : α)
    (hij : i ≠ j) : hget (hpush h j x) i = hget h i := by
  unfold hget hpush
  rw [List.getD_eq_getElem?_getD, List.getElem?_set_ne (fun he => hij he.symm),
    ← List.getD_eq_getElem?_getD]

/-- The agentic loop only ever pushes to the `messages` cell: every other
heap cell is left untouched, on normal exit and on the throwing path alike. -/
theorem chatLoopH_preserves {I R : Type} (ct : String → I → Except String R)
    (st : R → String) (cb : Bool) (engine : List (AnthropicResponse I)) :
    ∀ (r : AnthropicResponse I) (h : List (List (AnthropicMessage I)))
      (mref i : Nat), i ≠ mref →
      hget (chatLoopH ct st cb engine r h mref) i = hget h i := by
  induction engine with
  | nil =>
    intro r h mref i hne
    rw [chatLoopH]
    by_cases hr : r.stop_reason = .tool_use
    · rw [if_pos hr, hget_hpush_ne _ _ _ _ hne, hget_hpush_ne _ _ _ _ hne]
    · rw [if_neg hr]
  | cons next rest ih =>
    intro r h mref i hne
    rw [chatLoopH]
    by_cases hr : r.stop_reason = .tool_use
    · rw [if_pos hr, ih next _ mref i hne,
        hget_hpush_ne _ _ _ _ hne, hget_hpush_ne _ _ _ _ hne]
    · rw [if_neg hr]

/-- Whether the agentic loop throws depends only on the engine's responses,
never on the tool callback, serialization, or callback flag. -/
theorem chatLoop_isOk_indep {I R1 R2 : Type} (ct1 : String → I → Except String R1)
    (st1 : R1 → String) (cb1 : Bool) (ct2 : String → I → Except String R2)
    (st2 : R2 → String) (cb2 : Bool) (engine : List (AnthropicResponse I)) :
    ∀ (r : AnthropicResponse I) (acc1 : ChatAcc I R1) (acc2 : ChatAcc I R2),
      (chatLoop ct1 st1 cb1 engine r acc1).isOk =
        (chatLoop ct2 st2 cb2 engine r acc2).isOk := by
  induction engine with
  | nil =>
    intro r acc1 acc2
    rw [chatLoop, chatLoop]
    by_cases hr : r.stop_reason = .tool_use <;>
      simp [hr, Except.isOk, Except.toBool]
  | cons next rest ih =>
    intro r acc1 acc2
    rw [chatLoop, chatLoop]
    by_cases hr : r.stop_reason = .tool_use
    · rw [if_pos hr, if_pos hr]
      exact ih next _ _
    · rw [if_neg hr, if_neg hr]
      rfl

/-- Lifting of `chatLoop_isOk_indep` to `chat`. -/
theorem chat_isOk_indep {I R1 R2 : Type} (ct1 : String → I → Except String R1)
    (st1 : R1 → String) (cb1 : Bool) (ct2 : String → I → Except String R2)
    (st2 : R2 → String) (cb2 : Bool) (u : String)
    (hist : List (AnthropicMessage I)) (engine : List (AnthropicResponse I)) :
    (chat ct1 st1 cb1 u hist engine).isOk =
      (chat ct2 st2 cb2 u hist engine).isOk := by
  unfold chat
  cases engine with
  | nil => rfl
  | cons r rest => exact chatLoop_isOk_indep ct1 st1 cb1 ct2 st2 cb2 rest r _ _

/-! ## Claim theorems -/

/-- C1: in any round of `chat` whose engine response carries `N` `ToolUse`
blocks, the user-role message appended after executing them holds exactly `N`
`ToolResult` blocks whose `tool_use_id`s equal the `ToolUse` ids in the same
order, regardless of which invocations succeed or fail; and the loop then
proceeds on that state. -/
theorem chat_round_results_align {I R : Type} (ct : String → I → Except String R)
    (st : R → String) (cb : Bool) (r next : AnthropicResponse I)
    (rest : List (AnthropicResponse I)) (acc : ChatAcc I R)
    (h : r.stop_reason = .tool_use) :
    (execTools ct st cb (toolUses r.content)).results.length =
      (toolUses r.content).length ∧
    (execTools ct st cb (toolUses r.content)).results.map resultToolUseId =
      (toolUses r.content).map (fun u => u.1) ∧
    (∀ b ∈ (execTools ct st cb (toolUses r.content)).results,
        isToolResultBlock b = true) ∧
    (stepAcc ct st cb r acc).messages =
      acc.messages ++ [⟨.assistant, .blocks r.content⟩,
        ⟨.user, .blocks (execTools ct st cb (toolUses r.content)).results⟩] ∧
    chatLoop ct st cb (next :: rest) r acc =
      chatLoop ct st cb rest next
        { stepAcc ct st cb r acc with
            logEntries := (stepAcc ct st cb r acc).logEntries ++
              [.request (stepAcc ct st cb r acc).messages, .response next] } :=
  ⟨execTools_results_length ct st cb (toolUses r.content),
   execTools_results_ids ct st cb (toolUses r.content),
   execTools_results_are_toolResults ct st cb (toolUses r.content),
   rfl,
   chatLoop_tool_step ct st cb r next rest acc h⟩

/-- Witness for C1 at a concrete two-tool round (one success, one failure). -/
theorem chat_round_results_align_witness :
    rTool.stop_reason = .tool_use ∧
    ((execTools ctA id true (toolUses rTool.content)).results.length =
      (toolUses rTool.content).length ∧
    (execTools ctA id true (toolUses rTool.content)).results.map resultToolUseId =
      (toolUses rTool.content).map (fun u => u.1) ∧
    (∀ b ∈ (execTools ctA id true (toolUses rTool.content)).results,
        isToolResultBlock b = true) ∧
    (stepAcc ctA id true rTool accNil).messages =
      accNil.messages ++ [⟨.assistant, .blocks rTool.content⟩,
        ⟨.user, .blocks (execTools ctA id true (toolUses rTool.content)).results⟩] ∧
    chatLoop ctA id true [rEnd] rTool accNil =
      chatLoop ctA id true [] rEnd
        { stepAcc ctA id true rTool accNil with
            logEntries := (stepAcc ctA id true rTool accNil).logEntries ++
              [.request (stepAcc ctA id true rTool accNil).messages,
               .response rEnd] }) :=
  ⟨rfl, chat_round_results_align ctA id true rTool rEnd [] accNil rfl⟩

/-- C2: if the invoke callback rejects for one `ToolUse` among several in a
round, its `ToolResult` content is `"Error: " ++ message`, every other
`ToolUse` of the round is still executed (one result per block), and the loop
does not abort: it performs a subsequent engine call. -/
theorem chat_tool_error_contained {I R R2 : Type} (ct : String → I → Except String R)
    (st : R → String) (cb : Bool) (pre post : List (String × String × I))
    (id name : String) (input : I) (m : String)
    (r next : AnthropicResponse I) (rest : List (AnthropicResponse I))
    (acc : ChatAcc I R) (ct2 : String → I → Except String R2)
    (st2 : R2 → String) (cb2 : Bool) (u : String)
    (hist : List (AnthropicMessage I)) (engine : List (AnthropicResponse I))
    (hfail : ct name input = .error m)
    (hr : r.stop_reason = .tool_use)
    (huses : toolUses r.content = pre ++ (id, name, input) :: post) :
    (execTools ct st cb (toolUses r.content)).results =
      (execTools ct st cb pre).results ++
        .toolResult id ("Error: " ++ m) :: (execTools ct st cb post).results ∧
    (execTools ct st cb (toolUses r.content)).results.length =
      (toolUses r.content).length ∧
    chatLoop ct st cb (next :: rest) r acc =
      chatLoop ct st cb rest next
        { stepAcc ct st cb r acc with
            logEntries := (stepAcc ct st cb r acc).logEntries ++
              [.request (stepAcc ct st cb r acc).messages, .response next] } ∧
    (chat ct st cb u hist engine).isOk = (chat ct2 st2 cb2 u hist engine).isOk := by
  refine ⟨?_, execTools_results_length ct st cb (toolUses r.content),
    chatLoop_tool_step ct st cb r next rest acc hr,
    chat_isOk_indep ct st cb ct2 st2 cb2 u hist engine⟩
  rw [huses, execTools_append]
  simp [execTools, hfail]

/-- Witness for C2: tool `"b"` of the fixture round rejects with `"boom"`. -/
theorem chat_tool_error_contained_witness :
    ctA "b" 6 = .error "boom" ∧
    rTool.stop_reason = .tool_use ∧
    toolUses rTool.content = [("t1", "a", 5)] ++ ("t2", "b", 6) :: [] ∧
    ((execTools ctA id true (toolUses rTool.content)).results =
      (execTools ctA id true [("t1", "a", 5)]).results ++
        .toolResult "t2" ("Error: " ++ "boom") ::
          (execTools ctA id true ([] : List (String × String × Nat))).results ∧
    (execTools ctA id true (toolUses rTool.content)).results.length =
      (toolUses rTool.content).length ∧
    chatLoop ctA id true [rEnd] rTool accNil =
      chatLoop ctA id true [] rEnd
        { stepAcc ctA id true rTool accNil with
            logEntries := (stepAcc ctA id true rTool accNil).logEntries ++
              [.request (stepAcc ctA id true rTool accNil).messages,
               .response rEnd] } ∧
    (chat ctA id true "q" [] [rTool, rEnd]).isOk =
      (chat (fun _ _ => (.ok 0 : Except String Nat)) (fun _ => "") false
        "q" [] [rTool, rEnd]).isOk) :=
  ⟨rfl, rfl, rfl,
   chat_tool_error_contained ctA id true [("t1", "a", 5)] [] "t2" "b" 6 "boom"
     rTool rEnd [] accNil (fun _ _ => (.ok 0 : Except String Nat)) (fun _ => "")
     false "q" [] [rTool, rEnd] rfl rfl rfl⟩

/-- C3: after any successful run of `chat`, `totalInputTokens` equals the sum
of `usage.input_tokens` over the response-typed debug-log entries, and
`totalOutputTokens` the sum of `usage.output_tokens` over the same entries. -/
theorem chat_token_totals {I R : Type} (ct : String → I → Except String R)
    (st : R → String) (cb : Bool) (u : String)
    (hist : List (AnthropicMessage I)) (engine : List (AnthropicResponse I))
    (res : ChatResult I R) (h : chat ct st cb u hist engine = .ok res) :
    res.totalInputTokens =
      ((responseEntryUsages res.entries).map Usage.input_tokens).sum ∧
    res.totalOutputTokens =
      ((responseEntryUsages res.entries).map Usage.output_tokens).sum := by
  have hf : res.totalInputTokens = (chatTotals res.entries).1 ∧
      res.totalOutputTokens = (chatTotals res.entries).2 := by
    unfold chat at h
    cases engine with
    | nil => simp [sendMessage] at h
    | cons r rest =>
      simp only [sendMessage] at h
      exact chatLoop_ok_fields ct st cb rest r _ res h
  rw [chatTotals_eq_sums] at hf
  exact hf

/-- Witness for C3 at the concrete two-round fixture run. -/
theorem chat_token_totals_witness :
    chat ctA id false "q" [] [rTool, rEnd] = .ok resTwoRound ∧
    (resTwoRound.totalInputTokens =
      ((responseEntryUsages resTwoRound.entries).map Usage.input_tokens).sum ∧
    resTwoRound.totalOutputTokens =
      ((responseEntryUsages resTwoRound.entries).map Usage.output_tokens).sum) :=
  ⟨by rfl, chat_token_totals ctA id false "q" [] [rTool, rEnd] resTwoRound (by rfl)⟩

/-- C4: if the engine's first response has `stop_reason = end_turn`, `chat`
returns after a single exchange: the log is exactly one request/response
pair, no tool is invoked, no update is emitted, and the returned text is the
newline-join of the response's text blocks. -/
theorem chat_end_turn_single_round {I R : Type} (ct : String → I → Except String R)
    (st : R → String) (cb : Bool) (u : String)
    (hist : List (AnthropicMessage I)) (r : AnthropicResponse I)
    (rest : List (AnthropicResponse I)) (h : r.stop_reason = .end_turn) :
    chat ct st cb u hist (r :: rest) =
      .ok ⟨textJoin r.content, [],
        [.request (hist ++ [⟨.user, .str u⟩]), .response r],
        r.usage.input_tokens, r.usage.output_tokens, []⟩ := by
  have hne : r.stop_reason ≠ .tool_use := by rw [h]; intro hx; cases hx
  have hstart : chat ct st cb u hist (r :: rest) =
      chatLoop ct st cb rest r
        ⟨hist ++ [⟨.user, .str u⟩], [],
         [.request (hist ++ [⟨.user, .str u⟩]), .response r], []⟩ := rfl
  rw [hstart, chatLoop]
  simp [hne, chatTotals]

/-- Witness for C4: the fixture terminal response as first engine answer. -/
theorem chat_end_turn_single_round_witness :
    rEnd.stop_reason = .end_turn ∧
    chat ctA id false "q" [] [rEnd] =
      .ok ⟨textJoin rEnd.content, [],
        [.request ([] ++ [⟨.user, .str "q"⟩]), .response rEnd],
        rEnd.usage.input_tokens, rEnd.usage.output_tokens, []⟩ :=
  ⟨rfl, chat_end_turn_single_round ctA id false "q" [] rEnd [] rfl⟩

/-- Counterexample to C8 as stated: with the progress callback supplied and a
response that does contain a `Text` block (whitespace-only), the run emits
zero thinking updates, not one. -/
theorem chat_thinking_emission_cex :
    (rWs.content.filter isTextBlock).length > 0 ∧
    chat ctA id true "q" [] [rWs, rEnd] = .ok resWsRun ∧
    (resWsRun.updates.filter isThinkingUpd).length = 0 :=
  ⟨by decide, by rfl, by rfl⟩

/-- C8 (amended): in a tool round with the callback supplied, if the
newline-join of the response's text blocks is not whitespace-only, exactly
one `thinking` update carrying that join is emitted, before any tool update
of the round; it is skipped when the response has no text or only whitespace
text. -/
theorem chat_thinking_emitted_once {I R : Type} (ct : String → I → Except String R)
    (st : R → String) (r : AnthropicResponse I) (acc : ChatAcc I R)
    (h : jsTrim (String.intercalate "\n"
        ((r.content.filter isTextBlock).map blockText)) ≠ "") :
    (stepAcc ct st true r acc).updates =
      acc.updates ++ .thinking (textJoin r.content) ::
        (execTools ct st true (toolUses r.content)).updates ∧
    (∀ u ∈ (execTools ct st true (toolUses r.content)).updates,
        isThinkingUpd u = false) := by
  refine ⟨?_, execTools_no_thinking ct st true (toolUses r.content)⟩
  have hlen : 0 < (r.content.filter isTextBlock).length := by
    rcases hnil : r.content.filter isTextBlock with _ | ⟨b, bs⟩
    · rw [hnil] at h
      exact absurd rfl h
    · simp [hnil]
  simp [stepAcc, thinkingUpdates, textJoin, hlen, h]

/-- Witness for C8 (amended) at a round with real leading text. -/
theorem chat_thinking_emitted_once_witness :
    jsTrim (String.intercalate "\n"
        ((rTxt.content.filter isTextBlock).map blockText)) ≠ "" ∧
    ((stepAcc ctA id true rTxt accNil).updates =
      accNil.updates ++ .thinking (textJoin rTxt.content) ::
        (execTools ctA id true (toolUses rTxt.content)).updates ∧
    (∀ u ∈ (execTools ctA id true (toolUses rTxt.content)).updates,
        isThinkingUpd u = false)) :=
  ⟨by decide, chat_thinking_emitted_once ctA id rTxt accNil (by decide)⟩

/-- C9: `chat` never mutates the caller's `conversationHistory` array: the
loop's appends all go to the freshly allocated `messages` array, so after the
run (normal or throwing) the history cell of the heap is unchanged. -/
theorem chat_preserves_history {I R : Type} (ct : String → I → Except String R)
    (st : R → String) (cb : Bool) (u : String) (histRef : Nat)
    (h0 : List (List (AnthropicMessage I))) (engine : List (AnthropicResponse I))
    (hlt : histRef < h0.length) :
    hget (chatH ct st cb u histRef h0 engine) histRef = hget h0 histRef := by
  have hne : histRef ≠ h0.length := Nat.ne_of_lt hlt
  cases engine with
  | nil =>
    show hget (halloc h0 (hget h0 histRef ++ [⟨.user, .str u⟩])).1 histRef =
      hget h0 histRef
    exact hget_halloc h0 _ histRef hlt
  | cons r rest =>
    show hget (chatLoopH ct st cb rest r
        (halloc h0 (hget h0 histRef ++ [⟨.user, .str u⟩])).1 h0.length) histRef =
      hget h0 histRef
    rw [chatLoopH_preserves ct st cb rest r _ h0.length histRef hne]
    exact hget_halloc h0 _ histRef hlt

/-- Witness for C9 at a concrete heap holding one prior history message. -/
theorem chat_preserves_history_witness :
    0 < ([[⟨Role.user, .str "old"⟩]] : List (List (AnthropicMessage Nat))).length ∧
    hget (chatH ctA id true "q" 0 [[⟨Role.user, .str "old"⟩]] [rTool, rEnd]) 0 =
      hget ([[⟨Role.user, .str "old"⟩]] : List (List (AnthropicMessage Nat))) 0 :=
  ⟨by decide,
   chat_preserves_history ctA id true "q" 0 [[⟨Role.user, .str "old"⟩]]
     [rTool, rEnd] (by decide)⟩

/-- C10: the ids of the JSON-RPC requests sent across a session of
`mcpRequest` calls are `requestId + 1, requestId + 2, …` — each strictly
greater than every previously sent id, hence unique. -/
theorem mcp_request_ids_increase {P : Type} (requestId : Nat)
    (calls : List (String × Option P)) :
    mcpSessionIds requestId calls =
      (List.range calls.length).map (fun k => requestId + 1 + k) ∧
    List.Pairwise (fun a b => a < b) (mcpSessionIds requestId calls) := by
  have hexp : ∀ (n : Nat) (cs : List (String × Option P)),
      mcpSessionIds n cs = (List.range cs.length).map (fun k => n + 1 + k) := by
    intro n cs
    induction cs generalizing n with
    | nil => rfl
    | cons c rest ih =>
      obtain ⟨m, p⟩ := c
      show (n + 1) :: mcpSessionIds (n + 1) rest =
        List.map (fun k => n + 1 + k) (List.range ((m, p) :: rest).length)
      have htail : List.map ((fun k => n + 1 + k) ∘ Nat.succ) (List.range rest.length) =
          List.map (fun k => n + 1 + 1 + k) (List.range rest.length) :=
        List.map_congr_left (fun a _ => by
          simp only [Function.comp_apply]
          omega)
      rw [ih (n + 1), List.length_cons, List.range_succ_eq_map,
        List.map_cons, List.map_map, htail]
  refine ⟨hexp requestId calls, ?_⟩
  rw [hexp requestId calls]
  exact (List.pairwise_lt_range calls.length).map _
    (fun a b hab => by omega)

/-- C6: when a wrapped call fails with an auth-classed error, exactly one
forced re-acquisition happens and the call is retried exactly once with the
new credential (so a retry failure propagates); a failed forced refresh
propagates; a non-auth failure propagates at once with no re-acquisition. -/
theorem auto_refresh_retry {T : Type} (g g2 : Except String String)
    (now now2 : Nat) (apiCall : String → Except String T) (st st1 : TokenState)
    (t m : String) (n : Nat)
    (hv : getValidToken g now st = (.ok t, st1, n))
    (hfail : apiCall t = .error m) :
    (isAuthError m = true → ∀ t2, g2 = .ok t2 →
        withAutoRefresh g g2 now now2 apiCall st =
          (apiCall t2,
           { token := some t2,
             expiry := now2 + 2 * 60 * 60 * 1000 - 5 * 60 * 1000 },
           n + 1)) ∧
    (isAuthError m = true → ∀ e, g2 = .error e →
        withAutoRefresh g g2 now now2 apiCall st =
          (.error e, { token := none, expiry := st1.expiry }, n + 1)) ∧
    (isAuthError m = false →
        withAutoRefresh g g2 now now2 apiCall st = (.error m, st1, n)) := by
  unfold withAutoRefresh
  rw [hv]
  refine ⟨?_, ?_, ?_⟩
  · intro hauth t2 hg2
    subst hg2
    simp [hfail, hauth, doRefreshToken]
  · intro hauth e hg2
    subst hg2
    simp [hfail, hauth, doRefreshToken]
  · intro hauth
    simp [hfail, hauth]

/-- Witness for C6 at a cached token whose API call fails with a 401-style
message. -/
theorem auto_refresh_retry_witness :
    getValidToken (.ok "g0") 500 stTok = (.ok "tok", stTok, 0) ∧
    apiCallFix "tok" = .error "HTTP 401 unauthorized" ∧
    ((isAuthError "HTTP 401 unauthorized" = true → ∀ t2, (.ok "new" : Except String String) = .ok t2 →
        withAutoRefresh (.ok "g0") (.ok "new") 500 600 apiCallFix stTok =
          (apiCallFix t2,
           { token := some t2,
             expiry := 600 + 2 * 60 * 60 * 1000 - 5 * 60 * 1000 },
           0 + 1)) ∧
    (isAuthError "HTTP 401 unauthorized" = true → ∀ e, (.ok "new" : Except String String) = .error e →
        withAutoRefresh (.ok "g0") (.ok "new") 500 600 apiCallFix stTok =
          (.error e, { token := none, expiry := stTok.expiry }, 0 + 1)) ∧
    (isAuthError "HTTP 401 unauthorized" = false →
        withAutoRefresh (.ok "g0") (.ok "new") 500 600 apiCallFix stTok =
          (.error "HTTP 401 unauthorized", stTok, 0))) :=
  ⟨rfl, rfl,
   auto_refresh_retry (.ok "g0") (.ok "new") 500 600 apiCallFix stTok stTok
     "tok" "HTTP 401 unauthorized" 0 rfl rfl⟩

/-- C7: with a cached nonempty token and the current time strictly before the
recorded expiry, `getValidToken` returns the cached value unchanged with no
acquisition — and so does a second call within the validity window. -/
theorem cached_token_reuse (g1 g2 : Except String String) (now1 now2 : Nat)
    (st : TokenState) (t : String) (hc : st.token = some t) (hne : t ≠ "")
    (h1 : now1 < st.expiry) (h2 : now2 < st.expiry) :
    getValidToken g1 now1 st = (.ok t, st, 0) ∧
    getValidToken g2 now2 st = (.ok t, st, 0) := by
  have e1 : ¬ (st.expiry ≤ now1) := Nat.not_le_of_lt h1
  have e2 : ¬ (st.expiry ≤ now2) := Nat.not_le_of_lt h2
  constructor <;>
    simp [getValidToken, isTokenExpired, truthyToken, hc, hne, ge_iff_le, e1, e2]

/-- Witness for C7: two reads of the fixture cache before its expiry. -/
theorem cached_token_reuse_witness :
    stTok.token = some "tok" ∧ "tok" ≠ "" ∧ 400 < stTok.expiry ∧ 500 < stTok.expiry ∧
    (getValidToken (.ok "g1") 400 stTok = (.ok "tok", stTok, 0) ∧
     getValidToken (.ok "g2") 500 stTok = (.ok "tok", stTok, 0)) :=
  ⟨rfl, by decide, by decide, by decide,
   cached_token_reuse (.ok "g1") (.ok "g2") 400 500 stTok "tok" rfl
     (by decide) (by decide) (by decide)⟩

theorem lastWins_of_some {β : Type} (v : β) (acc : Option β) :
    lastWins (some v) acc = some v := rfl

theorem lastWins_of_none {β : Type} (acc : Option β) :
    lastWins none acc = acc := rfl

theorem lastWins_none {β : Type} (o : Option β) : lastWins o none = o := by
  cases o <;> rfl

/-- A left fold whose step keeps the latest successful parse computes the
last hit of the corresponding `filterMap`. -/
theorem foldl_lastwins {α β : Type} (f : α → Option β) (l : List α)
    (init : Option β) :
    l.foldl (fun acc x => lastWins (f x) acc) init =
      lastWins ((l.filterMap f).getLast?) init := by
  induction l generalizing init with
  | nil => rfl
  | cons x xs ih =>
    cases hfx : f x with
    | none =>
      rw [List.foldl_cons, hfx, lastWins_of_none, ih, List.filterMap_cons_none hfx]
    | some v =>
      rw [List.foldl_cons, hfx, lastWins_of_some, ih, List.filterMap_cons_some hfx]
      rcases hnil : xs.filterMap f with _ | ⟨w, ws⟩
      · rfl
      · have hcons : (v :: w :: ws).getLast? = (w :: ws).getLast? := rfl
        rw [hcons]
        cases hgl : (w :: ws).getLast? with
        | none => exact absurd (List.getLast?_eq_none_iff.mp hgl) (by simp)
        | some u => rw [lastWins_of_some, lastWins_of_some]

/-- The code's SSE scan equals the spec's "last parseable `data:` line",
provided the parser never accepts a whitespace-only payload (true of JSON). -/
theorem parseSSE_eq_lastData {R : Type} (p : String → Option (MCPResponseJ R))
    (hp : ∀ s, (p s).isSome → jsTrim s ≠ "") (text : String) :
    parseSSE p text = lastDataPayload p text := by
  unfold parseSSE lastDataPayload
  have hstep :
      (fun (acc : Option (MCPResponseJ R)) line =>
        if line.startsWith "data: " then
          let jsonStr := line.drop 6
          if jsTrim jsonStr ≠ "" then lastWins (p jsonStr) acc
          else acc
        else acc) =
      (fun (acc : Option (MCPResponseJ R)) (line : String) =>
        lastWins (if line.startsWith "data: " then
            (if jsTrim (line.drop 6) ≠ "" then p (line.drop 6) else none)
          else none) acc) := by
    funext acc line
    by_cases h1 : line.startsWith "data: "
    · by_cases h2 : jsTrim (line.drop 6) ≠ ""
      · simp [h1, h2]
      · simp [h1, h2, lastWins_of_none]
    · simp [h1, lastWins_of_none]
  rw [hstep]
  simp only [foldl_lastwins]
  rw [lastWins_none]
  have hfm : ((text.splitOn "\n").filterMap
      (fun line => if line.startsWith "data: " then
        (if jsTrim (line.drop 6) ≠ "" then p (line.drop 6) else none) else none)) =
    ((text.splitOn "\n").filterMap
      (fun line => if line.startsWith "data: " then p (line.drop 6) else none)) := by
    apply List.filterMap_congr
    intro line _
    by_cases h1 : line.startsWith "data: "
    · by_cases h2 : jsTrim (line.drop 6) ≠ ""
      · simp [h1, h2]
      · cases hps : p (line.drop 6) with
        | none => simp [h1, h2, hps]
        | some v => exact absurd (hp _ (by simp [hps])) h2
    · simp [h1]
  rw [hfm]

/-- C5: for an SSE (`text/event-stream`) response, `mcpRequest` takes as
payload the last `data: ` line of the body that parses as well-formed JSON
(earlier data lines and malformed lines ignored), throws when no such line
exists, throws with the error's message when the payload carries an error
object, and otherwise returns the payload's result — identically to the
plain-JSON path. -/
theorem mcp_sse_transparent {R : Type} (p : String → Option (MCPResponseJ R))
    (hp : ∀ s, (p s).isSome → jsTrim s ≠ "") (ct body : String)
    (hct : strIncludes "text/event-stream" ct = true) :
    parseSSE p body = lastDataPayload p body ∧
    (lastDataPayload p body = none →
      mcpHandleResponse p ct body = .error "No valid JSON data in SSE response") ∧
    (∀ d, lastDataPayload p body = some d →
      mcpHandleResponse p ct body =
        (match d.error with
         | some e => .error e.message
         | none => .ok d.result)) ∧
    (∀ d body2, lastDataPayload p body = some d → p body2 = some d →
      mcpHandleResponse p ct body = mcpHandleResponse p "application/json" body2) := by
  have hpe := parseSSE_eq_lastData p hp body
  have hjson : strIncludes "text/event-stream" "application/json" = false := by decide
  refine ⟨hpe, ?_, ?_, ?_⟩
  · intro hnone
    simp [mcpHandleResponse, hct, hpe, hnone]
  · intro d hd
    cases he : d.error with
    | some e => simp [mcpHandleResponse, hct, hpe, hd, he]
    | none => simp [mcpHandleResponse, hct, hpe, hd, he]
  · intro d body2 hd hb2
    cases he : d.error with
    | some e => simp [mcpHandleResponse, hct, hjson, hpe, hd, hb2, he]
    | none => simp [mcpHandleResponse, hct, hjson, hpe, hd, hb2, he]

/-- Witness for C5 at a concrete SSE body with two parseable data lines and a
malformed one. -/
theorem mcp_sse_transparent_witness :
    (∀ s, (pFix s).isSome → jsTrim s ≠ "") ∧
    strIncludes "text/event-stream" "text/event-stream" = true ∧
    (parseSSE pFix sseBody = lastDataPayload pFix sseBody ∧
    (lastDataPayload pFix sseBody = none →
      mcpHandleResponse pFix "text/event-stream" sseBody =
        .error "No valid JSON data in SSE response") ∧
    (∀ d, lastDataPayload pFix sseBody = some d →
      mcpHandleResponse pFix "text/event-stream" sseBody =
        (match d.error with
         | some e => .error e.message
         | none => .ok d.result)) ∧
    (∀ d body2, lastDataPayload pFix sseBody = some d → pFix body2 = some d →
      mcpHandleResponse pFix "text/event-stream" sseBody =
        mcpHandleResponse pFix "application/json" body2)) := by
  have hp : ∀ s, (pFix s).isSome → jsTrim s ≠ "" := by
    intro s hs
    by_cases h1 : s = "one"
    · subst h1; decide
    · by_cases h2 : s = "two"
      · subst h2; decide
      · simp [pFix, h1, h2] at hs
  exact ⟨hp, by decide,
    mcp_sse_transparent pFix hp "text/event-stream" sseBody (by decide)⟩

end Sightline
